import Mathlib

/-!
Verification development for the `audio-converter` repository (two Python
desktop apps that batch-convert images).

Shallow embedding conventions:
* A filesystem path is its list of components (`Path := List String`),
  matching `pathlib.PurePath.parts`; path comparison (`sorted()`) is the
  lexicographic order on component lists.
* The filesystem is a list of entries (`FsEntry`), each carrying its path,
  whether it is a regular file (`pathlib` globs also return directories),
  and its byte content (`List Nat`).
* External effects (PIL `Image.open`/`save`, `Path.stat`) are oracles:
  `Except String β` values standing for "raised an exception with message
  `e`" versus "returned normally".  MD5 is an abstract function
  `List Nat → String` of the full file content.
* `glob`/`rglob` with pattern `*<ext>` matches exactly the entries at the
  right depth whose final component ends with `<ext>` (fnmatch `*` matches
  any run of characters, including the empty one, case sensitively).
* Python's `list.sort()` is modelled by `List.insertionSort (· ≤ ·)`: on a
  duplicate-free list every correct sort produces the same, unique sorted
  permutation, so the choice of algorithm is immaterial.
-/

namespace ImageConverter

/-- A filesystem path as its list of components (`PurePath.parts`). -/
abbrev Path := List String

/-- The final component of a path (`Path.name`); `""` for the root. -/
def entryName (p : Path) : String := p.getLastD ""

/-- One filesystem entry: its path, whether it is a regular file, and its
byte content. -/
structure FsEntry where
  path : Path
  isFile : Bool
  content : List Nat
deriving DecidableEq

/-- `INPUT_FORMATS` from `image_converter.py` (name ↦ extension list). -/
def INPUT_FORMATS : List (String × List String) :=
  [("PNG", [".png"]),
   ("JPEG", [".jpg", ".jpeg"]),
   ("WebP", [".webp"]),
   ("BMP", [".bmp"]),
   ("GIF", [".gif"]),
   ("TIFF", [".tiff", ".tif"]),
   ("ICO", [".ico"]),
   ("All Images", [".png", ".jpg", ".jpeg", ".webp", ".bmp", ".gif", ".tiff", ".tif"])]

/-- The output formats offered by the PyQt app.  The GUI combo box is
populated from the `OUTPUT_FORMATS` dict keys, so a settings record can
only ever carry one of these seven names. -/
inductive OutputFormat
  | WebP | PNG | JPEG | BMP | GIF | TIFF | ICO
deriving DecidableEq

/-- Per-format configuration record (`ext`, `quality`, `optimize`). -/
structure FormatCfg where
  ext : String
  quality : Bool
  optimize : Bool
deriving DecidableEq

/-- `OUTPUT_FORMATS` from `image_converter.py`. -/
def OUTPUT_FORMATS : OutputFormat → FormatCfg
  | .WebP => ⟨".webp", true, true⟩
  | .PNG  => ⟨".png", false, true⟩
  | .JPEG => ⟨".jpg", true, true⟩
  | .BMP  => ⟨".bmp", false, false⟩
  | .GIF  => ⟨".gif", false, true⟩
  | .TIFF => ⟨".tiff", true, false⟩
  | .ICO  => ⟨".ico", false, false⟩

/-- `ConversionSettings` dataclass.  `output_directory` is a path, `[]`
standing for the empty (falsy) string. -/
structure ConversionSettings where
  input_format : String := "All Images"
  output_format : OutputFormat := .WebP
  quality : Nat := 80
  recursive : Bool := true
  delete_original : Bool := false
  preserve_metadata : Bool := true
  resize_enabled : Bool := false
  resize_width : Nat := 0
  resize_height : Nat := 0
  maintain_aspect_ratio : Bool := true
  apply_optimization : Bool := true
  rename_pattern : String := ""
  add_suffix : String := ""
  output_directory : Path := []
  max_workers : Nat := 4
deriving DecidableEq

/-- `ConversionResult` dataclass. -/
structure ConversionResult where
  source_path : Path
  output_path : Option Path
  success : Bool
  original_size : Nat
  new_size : Nat
  error_message : String := ""
deriving DecidableEq

/-- `ConversionResult.size_saved`: `max(0, original_size - new_size)` over
Python integers. -/
def ConversionResult.size_saved (r : ConversionResult) : Int :=
  max 0 ((r.original_size : Int) - (r.new_size : Int))

/-- `ConversionResult.compression_ratio`, with exact rational arithmetic
standing for Python floats. -/
def ConversionResult.compression_ratio (r : ConversionResult) : Rat :=
  if r.original_size = 0 then 0
  else ((r.size_saved : Rat) / (r.original_size : Rat)) * 100

/-- `str.endswith` (fnmatch `*<pat>` acceptance), over character lists. -/
def strEndsWith (s pat : String) : Bool := pat.toList.isSuffixOf s.toList

/-- `str.upper` for the ASCII extension strings the apps use. -/
def charUpper (c : Char) : Char :=
  if 97 ≤ c.toNat ∧ c.toNat ≤ 122 then Char.ofNat (c.toNat - 32) else c

/-- `str.upper` on a whole string. -/
def strUpper (s : String) : String := String.mk (s.toList.map charUpper)

/-- `str.lower` for the ASCII extension strings the apps use. -/
def charLower (c : Char) : Char :=
  if 65 ≤ c.toNat ∧ c.toNat ≤ 90 then Char.ofNat (c.toNat + 32) else c

/-- `str.lower` on a whole string. -/
def strLower (s : String) : String := String.mk (s.toList.map charLower)

/-- `ConversionWorker.get_input_extensions`:
`INPUT_FORMATS.get(fmt, INPUT_FORMATS['All Images'])`. -/
def get_input_extensions (fmt : String) : List String :=
  ((INPUT_FORMATS.lookup fmt).orElse (fun _ => INPUT_FORMATS.lookup "All Images")).getD []

/-- `p` lies strictly below directory `dir` at any depth (`rglob` scope). -/
def isDescendant (dir p : Path) : Bool :=
  dir.isPrefixOf p && decide (dir.length < p.length)

/-- `p` is an immediate child of directory `dir` (non-recursive `glob`
scope). -/
def isChild (dir p : Path) : Bool :=
  dir.isPrefixOf p && decide (p.length = dir.length + 1)

/-- Whether the entry at `p` is matched by `glob`/`rglob` with pattern
`*<pat>` from `dir`: right depth, and final component ends with `pat`. -/
def globMatch (recursive : Bool) (dir : Path) (pat : String) (p : Path) : Bool :=
  (if recursive then isDescendant dir p else isChild dir p) && strEndsWith (entryName p) pat

/-- The paths produced by one `glob`/`rglob` call, in filesystem order. -/
def globFiles (fs : List FsEntry) (recursive : Bool) (dir : Path) (pat : String) : List Path :=
  (fs.filter (fun e => globMatch recursive dir pat e.path)).map (fun e => e.path)

/-- Strict lexicographic order on character lists by code point, the
order Python uses to compare the strings inside a path's parts tuple. -/
def charsLt : List Char → List Char → Bool
  | _, [] => false
  | [], _ :: _ => true
  | a :: as, b :: bs =>
    if a.toNat < b.toNat then true
    else if b.toNat < a.toNat then false
    else charsLt as bs

/-- Strict string order by code points. -/
def strLt (a b : String) : Bool := charsLt a.toList b.toList

/-- `a ≤ b` for paths: lexicographic over components, the order used by
`sorted()`/`list.sort()` on `pathlib` paths. -/
def pathLe : Path → Path → Bool
  | [], _ => true
  | _ :: _, [] => false
  | a :: as, b :: bs =>
    if strLt a b then true
    else if strLt b a then false
    else pathLe as bs

/-- `pathLe` as a decidable proposition, for `List.insertionSort`. -/
def pathLeP (a b : Path) : Prop := pathLe a b = true

instance : DecidableRel pathLeP := fun a b => decEq (pathLe a b) true

/-- `ConversionWorker.find_images`: for each extension collect the
lower-case glob and the `.upper()` glob, then `list(set(_))` and
`.sort()`.  (On a duplicate-free list every correct sort yields the same
sorted permutation, so insertion sort stands for Timsort.) -/
def find_images (fs : List FsEntry) (dir : Path) (s : ConversionSettings) : List Path :=
  let extensions := get_input_extensions s.input_format
  let images := extensions.foldl
    (fun acc ext =>
      acc ++ globFiles fs s.recursive dir ext ++ globFiles fs s.recursive dir (strUpper ext))
    []
  List.insertionSort pathLeP images.dedup

/-- Index of the last occurrence of `c` in `cs` (`str.rfind`). -/
def rfindIdx (cs : List Char) (c : Char) : Option Nat :=
  ((List.range cs.length).filter (fun i => cs.getD i ' ' == c)).getLast?

/-- `PurePath.stem`: the final component without its suffix.  The suffix
starts at the last dot, provided that dot is neither the first nor the
last character of the name. -/
def path_stem (name : String) : String :=
  let cs := name.toList
  match rfindIdx cs '.' with
  | some i => if 0 < i ∧ i < cs.length - 1 then String.mk (cs.take i) else name
  | none => name

/-- `PurePath.suffix`: the extension of the final component, or `""`. -/
def path_suffix (name : String) : String :=
  let cs := name.toList
  match rfindIdx cs '.' with
  | some i => if 0 < i ∧ i < cs.length - 1 then String.mk (cs.drop i) else ""
  | none => ""

/-- `PurePath.relative_to`: strips `base` off the front of `p`; `none`
models the `ValueError` raised when `base` is not an ancestor. -/
def relative_to (p base : Path) : Option Path :=
  if base.isPrefixOf p then some (p.drop base.length) else none

/-- The `{name}`/`{date}`/`{time}` substitution applied to a rename
pattern, in the source's replacement order. -/
def apply_rename_pattern (pattern stem dateStr timeStr : String) : String :=
  ((pattern.replace "{name}" stem).replace "{date}" dateStr).replace "{time}" timeStr

/-- The transformed stem of `generate_output_path`: rename pattern (when
set), then suffix (when set). -/
def transformed_stem (s : ConversionSettings) (source : Path) (dateStr timeStr : String) : String :=
  let stem0 := path_stem (entryName source)
  let stem1 := if s.rename_pattern ≠ "" then
      apply_rename_pattern s.rename_pattern stem0 dateStr timeStr
    else stem0
  if s.add_suffix ≠ "" then stem1 ++ s.add_suffix else stem1

/-- `ConversionWorker.generate_output_path`.  `dateStr`/`timeStr` stand
for `datetime.now()` renderings; `none` models the `ValueError` from
`relative_to` when the source is not under the scanned directory. -/
def generate_output_path (s : ConversionSettings) (dir : Path) (source : Path)
    (dateStr timeStr : String) : Option Path :=
  let output_ext := (OUTPUT_FORMATS s.output_format).ext
  let stem := transformed_stem s source dateStr timeStr
  match (if s.output_directory ≠ ([] : Path) then
          (relative_to source.dropLast dir).map (fun rel => s.output_directory ++ rel)
         else some source.dropLast) with
  | none => none
  | some output_dir => some (output_dir ++ [stem ++ output_ext])

/-- `ConversionWorker.convert_single_image`.  `statRes` is the outcome of
`source.stat().st_size` (line 533, before the `try`); `saveRes` is the
outcome of the whole `try` body (`Image.open` … `img.save` … stat of the
output), yielding the output's size on success.  `Except.error e` in the
result models an exception with message `e` escaping the call; the `Bool`
in the payload records whether the original file was unlinked. -/
def convert_single_image (s : ConversionSettings) (dir : Path) (source : Path)
    (dateStr timeStr : String) (statRes : Except String Nat)
    (saveRes : Except String Nat) : Except String (ConversionResult × Bool) :=
  match statRes with
  | .error e => .error e
  | .ok original_size =>
    match generate_output_path s dir source dateStr timeStr with
    | none => .error "ValueError: source is not in the subpath of the scanned directory"
    | some output_path =>
      match saveRes with
      | .error e =>
          .ok (⟨source, none, false, original_size, 0, e⟩, false)
      | .ok new_size =>
          .ok (⟨source, some output_path, true, original_size, new_size, ""⟩,
               s.delete_original && source ≠ output_path)

/-- The observable actions of `ConversionWorker.run`, in emission order:
Qt signals, task submissions, and the thread-pool construction. -/
inductive Event where
  | log (msg : String) (kind : String)
  | pool (workers : Nat)
  | submit (img : Path)
  | fileConverted (r : ConversionResult)
  | progressEv (cur total : Nat)
  | complete (results : List ConversionResult)
deriving DecidableEq

/-- The `for i, future in enumerate(as_completed(futures))` loop of
`ConversionWorker.run`.  `order` is the completion order of the submitted
tasks, `conv` the per-task result, and `cancelledAt i` the value of
`_is_cancelled` read at the top of iteration `i`.  Returns the emitted
events and the accumulated `results` list. -/
def run_loop (conv : Path → ConversionResult) (total : Nat) (cancelledAt : Nat → Bool) :
    List Path → Nat → List Event × List ConversionResult
  | [], _ => ([], [])
  | img :: rest, i =>
    if cancelledAt i then
      ([Event.log "Conversion cancelled by user" "warning"], [])
    else
      let r := conv img
      let tail := run_loop conv total cancelledAt rest (i + 1)
      ((if r.success then
          Event.log "converted" "success"
        else
          Event.log r.error_message "error")
         :: Event.fileConverted r :: Event.progressEv (i + 1) total :: tail.1,
       r :: tail.2)

/-- `ConversionWorker.run`: scan, early return when nothing matched,
otherwise submit one task per image to a `max_workers` pool, drain the
completions, and emit `conversion_complete` with the results. -/
def ConversionWorker.run (fs : List FsEntry) (dir : Path) (s : ConversionSettings)
    (conv : Path → ConversionResult) (order : List Path) (cancelledAt : Nat → Bool) :
    List Event :=
  let images := find_images fs dir s
  if images.isEmpty then
    [Event.log "Scanning directory" "info",
     Event.log "No images found matching the selected format." "warning",
     Event.complete []]
  else
    let looped := run_loop conv images.length cancelledAt order 0
    [Event.log "Scanning directory" "info",
     Event.log "Found images to convert" "info",
     Event.pool s.max_workers]
      ++ images.map Event.submit
      ++ looped.1
      ++ [Event.complete looped.2]

/-- The paths submitted to the pool, in submission order. -/
def submittedPaths : List Event → List Path
  | [] => []
  | Event.submit p :: rest => p :: submittedPaths rest
  | _ :: rest => submittedPaths rest

/-- The payloads of the `conversion_complete` signals in a trace. -/
def completePayloads : List Event → List (List ConversionResult)
  | [] => []
  | Event.complete rs :: rest => rs :: completePayloads rest
  | _ :: rest => completePayloads rest

/-- The results reported through the per-file `file_converted` signal. -/
def fileConvertedResults : List Event → List ConversionResult
  | [] => []
  | Event.fileConverted r :: rest => r :: fileConvertedResults rest
  | _ :: rest => fileConvertedResults rest

/-- The extension list of `ImageConverterPro.find_duplicates` (note:
`.tif` absent, matching compared case-insensitively via
`suffix.lower()`). -/
def dup_extensions : List String :=
  [".png", ".jpg", ".jpeg", ".webp", ".bmp", ".gif", ".tiff"]

/-- The entries `find_duplicates` visits and hashes: every `rglob('*')`
hit whose suffix, lower-cased, is a recognized extension. -/
def dupScanned (fs : List FsEntry) (dir : Path) : List FsEntry :=
  fs.filter (fun e =>
    isDescendant dir e.path &&
      dup_extensions.contains (strLower (path_suffix (entryName e.path))))

/-- `ImageConverterPro.get_file_hash`: the MD5 digest of the full file
content (read in 4096-byte chunks, which hashes the whole stream). -/
def get_file_hash (md5 : List Nat → String) (e : FsEntry) : String := md5 e.content

/-- `ImageConverterPro.find_duplicates` (the grouping logic): bucket the
scanned entries by content hash, report the buckets with more than one
member.  Opening a non-file entry raises, which aborts the whole scan
(`Except.error`). -/
def find_duplicates (md5 : List Nat → String) (fs : List FsEntry) (dir : Path) :
    Except String (List (List Path)) :=
  let scanned := dupScanned fs dir
  if scanned.all (fun e => e.isFile) then
    let keys := (scanned.map (get_file_hash md5)).dedup
    Except.ok
      ((keys.map (fun k =>
          (scanned.filter (fun e => get_file_hash md5 e == k)).map (fun e => e.path))).filter
        (fun g => decide (1 < g.length)))
  else Except.error "IsADirectoryError"

/-- One line of the Tkinter app's log area. -/
structure LogEntry where
  msg : String
  tipo : String
deriving DecidableEq

/-- The running state of `ConversorWebP.converter_imagens`. -/
structure TkState where
  convertidos : Nat
  erros : Nat
  total_economia : Int
  logs : List LogEntry
deriving DecidableEq

/-- `extensoes_validas` of `conversor_webp.py`. -/
def extensoes_validas : List String := [".png", ".jpg", ".jpeg"]

/-- The guard of the Tkinter per-file loop:
`arquivo.is_file() and arquivo.suffix.lower() in extensoes_validas`. -/
def tkShouldProcess (e : FsEntry) : Bool :=
  e.isFile && extensoes_validas.contains (strLower (path_suffix (entryName e.path)))

/-- The red log line `"❌ Erro ao converter {arquivo.name}: {str(e)}"`. -/
def tkErrorLog (e : FsEntry) (msg : String) : LogEntry :=
  ⟨"Erro ao converter " ++ entryName e.path ++ ": " ++ msg, "erro"⟩

/-- Whether an oracle outcome stands for a raised exception. -/
def exceptFailed {α β : Type} : Except α β → Bool
  | .error _ => true
  | .ok _ => false

/-- The per-file body of `ConversorWebP.converter_imagens`: skip entries
that are not files with a recognized (lower-cased) suffix; otherwise
`conv` gives the outcome of the `try` body — `(orig, novo)` sizes on a
successful conversion, or the message of a caught `OSError`/`ValueError`.
-/
def converter_step (conv : Path → Except String (Nat × Nat)) (st : TkState)
    (e : FsEntry) : TkState :=
  if tkShouldProcess e then
    match conv e.path with
    | .ok (tamanho_orig, tamanho_novo) =>
        let economia : Int := (tamanho_orig : Int) - (tamanho_novo : Int)
        { st with
          convertidos := st.convertidos + 1
          total_economia :=
            if 0 < economia then st.total_economia + economia else st.total_economia
          logs := st.logs ++ [⟨"convertido: " ++ entryName e.path, "sucesso"⟩] }
    | .error msg =>
        { st with
          erros := st.erros + 1
          logs := st.logs ++ [tkErrorLog e msg] }
  else st

/-- `ConversorWebP.converter_imagens`: fold the per-file body over the
`rglob('*')` traversal of the chosen directory (`fs` restricted to the
descendants of `dirOrigem`, in traversal order). -/
def converter_imagens (fs : List FsEntry) (dirOrigem : Path)
    (conv : Path → Except String (Nat × Nat)) : TkState :=
  (fs.filter (fun e => isDescendant dirOrigem e.path)).foldl (converter_step conv) ⟨0, 0, 0, []⟩

/-- The shape the spec ascribes to every produced `ConversionResult`:
success with an output path and empty message, or error with no output
path, zero new size, and a NON-empty message. -/
def resultWellFormed (r : ConversionResult) : Prop :=
  (r.success = true ∧ r.output_path ≠ none ∧ r.error_message = "") ∨
  (r.success = false ∧ r.output_path = none ∧ r.new_size = 0 ∧ r.error_message ≠ "")

/-! ## Properties of the path order -/

theorem char_toNat_inj {a b : Char} (h : a.toNat = b.toNat) : a = b := by
  unfold Char.toNat at h
  exact Char.eq_of_val_eq (UInt32.toNat.inj h)

theorem charsLt_nil_right (x : List Char) : charsLt x [] = false := by
  cases x <;> rfl

theorem charsLt_nil_left (c : Char) (cs : List Char) : charsLt [] (c :: cs) = true := rfl

theorem charsLt_cons (a b : Char) (as bs : List Char) :
    charsLt (a :: as) (b :: bs) =
      if a.toNat < b.toNat then true
      else if b.toNat < a.toNat then false
      else charsLt as bs := rfl

theorem charsLt_irrefl : ∀ (x : List Char), charsLt x x = false := by
  intro x
  induction x with
  | nil => rfl
  | cons a as ih => rw [charsLt_cons]; simp [ih]

theorem charsLt_conn : ∀ (x y : List Char),
    charsLt x y = false → charsLt y x = false → x = y := by
  intro x
  induction x with
  | nil =>
    intro y hxy _
    cases y with
    | nil => rfl
    | cons b bs => exact absurd hxy (by simp [charsLt_nil_left])
  | cons a as ih =>
    intro y hxy hyx
    cases y with
    | nil => exact absurd hyx (by simp [charsLt_nil_left])
    | cons b bs =>
      rw [charsLt_cons] at hxy hyx
      by_cases h1 : a.toNat < b.toNat
      · simp [h1] at hxy
      · by_cases h2 : b.toNat < a.toNat
        · simp [h1, h2] at hyx
        · have hab : a = b := char_toNat_inj (by omega)
          simp [h1, h2] at hxy hyx
          rw [hab, ih bs hxy hyx]

theorem charsLt_trans : ∀ (x y z : List Char),
    charsLt x y = true → charsLt y z = true → charsLt x z = true := by
  intro x
  induction x with
  | nil =>
    intro y z _ hyz
    cases z with
    | nil => exact absurd hyz (by simp [charsLt_nil_right])
    | cons c cs => exact charsLt_nil_left c cs
  | cons a as ih =>
    intro y z hxy hyz
    cases y with
    | nil => exact absurd hxy (by simp [charsLt_nil_right])
    | cons b bs =>
      cases z with
      | nil => exact absurd hyz (by simp [charsLt_nil_right])
      | cons c cs =>
        rw [charsLt_cons] at hxy hyz ⊢
        by_cases h1 : a.toNat < b.toNat <;> by_cases h2 : b.toNat < c.toNat
        · simp [show a.toNat < c.toNat by omega]
        · by_cases h3 : c.toNat < b.toNat
          · simp [h2, h3] at hyz
          · simp [show a.toNat < c.toNat by omega]
        · by_cases h3 : b.toNat < a.toNat
          · simp [h1, h3] at hxy
          · simp [show a.toNat < c.toNat by omega]
        · by_cases h3 : b.toNat < a.toNat
          · simp [h1, h3] at hxy
          · by_cases h4 : c.toNat < b.toNat
            · simp [h2, h4] at hyz
            · simp [h1, h3] at hxy
              simp [h2, h4] at hyz
              simp [show ¬ a.toNat < c.toNat by omega, show ¬ c.toNat < a.toNat by omega]
              exact ih bs cs hxy hyz

theorem strLt_irrefl (a : String) : strLt a a = false := charsLt_irrefl _

theorem strLt_conn {a b : String} (h1 : strLt a b = false) (h2 : strLt b a = false) :
    a = b :=
  String.ext (charsLt_conn _ _ h1 h2)

theorem strLt_trans {a b c : String} (h1 : strLt a b = true) (h2 : strLt b c = true) :
    strLt a c = true :=
  charsLt_trans _ _ _ h1 h2

theorem pathLe_nil_left (p : Path) : pathLe [] p = true := rfl

theorem pathLe_nil_right (x : String) (xs : Path) : pathLe (x :: xs) [] = false := rfl

theorem pathLe_cons (a b : String) (as bs : Path) :
    pathLe (a :: as) (b :: bs) =
      if strLt a b then true
      else if strLt b a then false
      else pathLe as bs := rfl

theorem pathLe_total : ∀ (a b : Path), pathLe a b = true ∨ pathLe b a = true := by
  intro a
  induction a with
  | nil => intro b; exact Or.inl (pathLe_nil_left b)
  | cons x xs ih =>
    intro b
    cases b with
    | nil => exact Or.inr (pathLe_nil_left _)
    | cons y ys =>
      rw [pathLe_cons, pathLe_cons]
      by_cases h1 : strLt x y = true
      · left; simp [h1]
      · by_cases h2 : strLt y x = true
        · right; simp [h2]
        · have hxy : x = y := strLt_conn (by simpa using h1) (by simpa using h2)
          subst hxy
          simp [strLt_irrefl]
          exact ih ys

theorem pathLe_trans : ∀ (a b c : Path),
    pathLe a b = true → pathLe b c = true → pathLe a c = true := by
  intro a
  induction a with
  | nil => intro b c _ _; exact pathLe_nil_left c
  | cons x xs ih =>
    intro b c hab hbc
    cases b with
    | nil => exact absurd hab (by simp [pathLe_nil_right])
    | cons y ys =>
      cases c with
      | nil => exact absurd hbc (by simp [pathLe_nil_right])
      | cons z zs =>
        rw [pathLe_cons] at hab hbc ⊢
        by_cases h1 : strLt x y = true <;> by_cases h2 : strLt y z = true
        · simp [strLt_trans h1 h2]
        · by_cases h3 : strLt z y = true
          · simp [h2, h3] at hbc
          · have hyz : y = z := strLt_conn (by simpa using h2) (by simpa using h3)
            subst hyz; simp [h1]
        · by_cases h3 : strLt y x = true
          · simp [h1, h3] at hab
          · have hxy : x = y := strLt_conn (by simpa using h1) (by simpa using h3)
            subst hxy; simp [h2]
        · by_cases h3 : strLt y x = true
          · simp [h1, h3] at hab
          · by_cases h4 : strLt z y = true
            · simp [h2, h4] at hbc
            · have hxy : x = y := strLt_conn (by simpa using h1) (by simpa using h3)
              subst hxy
              have hxz : x = z := strLt_conn (by simpa using h2) (by simpa using h4)
              subst hxz
              simp [strLt_irrefl] at hab hbc ⊢
              exact ih ys zs hab hbc

instance : IsTotal Path pathLeP := ⟨pathLe_total⟩

instance : IsTrans Path pathLeP := ⟨fun a b c => pathLe_trans a b c⟩

/-! ## Claim theorems -/

/-- C10: the list returned by `find_images` contains no duplicate paths
and is sorted in ascending path order, so each discovered file appears at
most once even when the lower-case and upper-case glob patterns both
matched it. -/
theorem c10_find_images_nodup_sorted (fs : List FsEntry) (dir : Path)
    (s : ConversionSettings) :
    (find_images fs dir s).Sorted pathLeP ∧ (find_images fs dir s).Nodup := by
  constructor
  · exact List.sorted_insertionSort pathLeP _
  · exact (List.perm_insertionSort pathLeP _).nodup_iff.mpr (List.nodup_dedup _)

/-- C8: `size_saved` is non-negative and equals `max(0, original - new)`;
`compression_ratio` is total — `0` when `original_size = 0`, and
otherwise `size_saved / original_size * 100`. -/
theorem c8_size_saved_nonneg_ratio_total (r : ConversionResult) :
    0 ≤ r.size_saved ∧
    r.size_saved = max 0 ((r.original_size : Int) - (r.new_size : Int)) ∧
    (r.original_size = 0 → r.compression_ratio = 0) ∧
    (r.original_size ≠ 0 →
      r.compression_ratio = ((r.size_saved : Rat) / (r.original_size : Rat)) * 100) := by
  refine ⟨le_max_left 0 _, rfl, fun h => ?_, fun h => ?_⟩
  · simp [ConversionResult.compression_ratio, h]
  · simp [ConversionResult.compression_ratio, h]

/-- Witness for C8 at a concrete result record. -/
theorem c8_size_saved_nonneg_ratio_total_witness :
    0 ≤ ConversionResult.size_saved ⟨[], none, true, 0, 9, ""⟩ ∧
    ConversionResult.compression_ratio ⟨[], none, true, 0, 9, ""⟩ = 0 :=
  ⟨(c8_size_saved_nonneg_ratio_total ⟨[], none, true, 0, 9, ""⟩).1,
   (c8_size_saved_nonneg_ratio_total ⟨[], none, true, 0, 9, ""⟩).2.2.1 rfl⟩

theorem entryName_concat (l : Path) (x : String) : entryName (l ++ [x]) = x := by
  simp [entryName]

/-- C5: a generated output path is a sibling of the source when no output
directory is configured, and otherwise lives under the output directory at
the source's position relative to the scanned directory; its filename is
the transformed stem followed by the output format's extension. -/
theorem c5_output_path_location_and_extension (s : ConversionSettings)
    (dir source : Path) (dateStr timeStr : String) (out : Path)
    (h : generate_output_path s dir source dateStr timeStr = some out) :
    (s.output_directory = [] → out.dropLast = source.dropLast) ∧
    (s.output_directory ≠ [] → ∃ rel, relative_to source.dropLast dir = some rel ∧
        out.dropLast = s.output_directory ++ rel) ∧
    entryName out =
      transformed_stem s source dateStr timeStr ++ (OUTPUT_FORMATS s.output_format).ext := by
  unfold generate_output_path at h
  by_cases hod : s.output_directory = ([] : Path)
  · simp [hod] at h
    refine ⟨fun _ => ?_, fun hcon => absurd hod hcon, ?_⟩
    · rw [← h]; exact List.dropLast_concat ..
    · rw [← h]; exact entryName_concat ..
  · simp [hod] at h
    cases hrel : relative_to source.dropLast dir with
    | none => rw [hrel] at h; simp at h
    | some rel =>
      rw [hrel] at h
      simp at h
      refine ⟨fun hcon => absurd hcon hod, fun _ => ⟨rel, rfl, ?_⟩, ?_⟩
      · rw [← h, ← List.append_assoc]; exact List.dropLast_concat ..
      · rw [← h, ← List.append_assoc]; exact entryName_concat ..

/-- Witness for C5: WebP conversion of `d/a.png` with no output directory
set lands at `d/a.webp`. -/
theorem c5_output_path_location_and_extension_witness :
    generate_output_path {} ["d"] ["d", "a.png"] "20260101" "120000" =
      some ["d", "a.webp"] ∧
    entryName ["d", "a.webp"] =
      transformed_stem {} ["d", "a.png"] "20260101" "120000" ++
        (OUTPUT_FORMATS OutputFormat.WebP).ext :=
  ⟨rfl,
   (c5_output_path_location_and_extension {} ["d"] ["d", "a.png"] "20260101" "120000"
      ["d", "a.webp"] rfl).2.2⟩

/-- C9: the original file is unlinked only when `delete_original` is set
and the source differs from the generated output path; an in-place
conversion (source = output) never deletes the freshly written file. -/
theorem c9_delete_only_when_set_and_distinct (s : ConversionSettings)
    (dir source : Path) (dateStr timeStr : String)
    (statRes saveRes : Except String Nat) (r : ConversionResult) (del : Bool)
    (h : convert_single_image s dir source dateStr timeStr statRes saveRes =
      Except.ok (r, del)) :
    (del = true → s.delete_original = true ∧ ∃ out,
        generate_output_path s dir source dateStr timeStr = some out ∧ source ≠ out) ∧
    (generate_output_path s dir source dateStr timeStr = some source → del = false) := by
  unfold convert_single_image at h
  cases statRes with
  | error e => simp at h
  | ok n =>
    cases hg : generate_output_path s dir source dateStr timeStr with
    | none => rw [hg] at h; simp at h
    | some out =>
      rw [hg] at h
      cases saveRes with
      | error e =>
        simp at h
        obtain ⟨-, hdel⟩ := h
        refine ⟨fun hd => ?_, fun _ => hdel⟩
        rw [hdel] at hd
        exact absurd hd (by simp)
      | ok m =>
        simp at h
        obtain ⟨-, hdel⟩ := h
        constructor
        · intro hd
          rw [hd] at hdel
          simp at hdel
          exact ⟨hdel.1, out, rfl, hdel.2⟩
        · intro hsame
          have hos : out = source := by injection hsame
          subst hos
          rw [← hdel]
          simp

/-- Witness for C9: an in-place PNG→PNG conversion with
`delete_original = true` does not delete the freshly written output. -/
theorem c9_delete_only_when_set_and_distinct_witness :
    convert_single_image { delete_original := true, output_format := OutputFormat.PNG }
        ["d"] ["d", "a.png"] "x" "y" (Except.ok 100) (Except.ok 50) =
      Except.ok (⟨["d", "a.png"], some ["d", "a.png"], true, 100, 50, ""⟩, false) ∧
    (false : Bool) = false :=
  ⟨rfl,
   (c9_delete_only_when_set_and_distinct
      { delete_original := true, output_format := OutputFormat.PNG } ["d"] ["d", "a.png"]
      "x" "y" (Except.ok 100) (Except.ok 50)
      ⟨["d", "a.png"], some ["d", "a.png"], true, 100, 50, ""⟩ false rfl).2 rfl⟩

/-- C6 counterexample: a caught exception whose `str(e)` is empty (e.g. a
bare `OSError()`) yields `success=False` with an EMPTY `error_message`,
falsifying the claimed "error_message non-empty" shape. -/
theorem c6_counterexample :
    convert_single_image {} ["d"] ["d", "a.png"] "20260101" "120000" (Except.ok 100)
        (Except.error "") =
      Except.ok (⟨["d", "a.png"], none, false, 100, 0, ""⟩, false) ∧
    ¬ resultWellFormed ⟨["d", "a.png"], none, false, 100, 0, ""⟩ :=
  ⟨rfl, by simp [resultWellFormed]⟩

/-- C6 (amended): every result returned by `convert_single_image` is
either a success (output path present, empty message) or an error record
(no output path, zero new size) whose message is exactly the raised
exception's message — non-empty exactly when that message is. -/
theorem c6_result_shapes (s : ConversionSettings) (dir source : Path)
    (dateStr timeStr : String) (statRes saveRes : Except String Nat)
    (r : ConversionResult) (del : Bool)
    (h : convert_single_image s dir source dateStr timeStr statRes saveRes =
      Except.ok (r, del)) :
    (r.success = true ∧ r.output_path.isSome = true ∧ r.error_message = "") ∨
    (r.success = false ∧ r.output_path = none ∧ r.new_size = 0 ∧
      ∃ e, saveRes = Except.error e ∧ r.error_message = e) := by
  unfold convert_single_image at h
  cases statRes with
  | error e => simp at h
  | ok n =>
    cases hg : generate_output_path s dir source dateStr timeStr with
    | none => rw [hg] at h; simp at h
    | some out =>
      rw [hg] at h
      cases saveRes with
      | error e =>
        simp at h
        obtain ⟨hr, -⟩ := h
        right
        rw [← hr]
        exact ⟨rfl, rfl, rfl, e, rfl, rfl⟩
      | ok m =>
        simp at h
        obtain ⟨hr, -⟩ := h
        left
        rw [← hr]
        exact ⟨rfl, rfl, rfl⟩

/-- Witness for C6 at a successful concrete conversion. -/
theorem c6_result_shapes_witness :
    (⟨["d", "a.png"], some ["d", "a.webp"], true, 100, 50, ""⟩ :
      ConversionResult).success = true := by
  rcases c6_result_shapes {} ["d"] ["d", "a.png"] "x" "y" (Except.ok 100) (Except.ok 50)
      ⟨["d", "a.png"], some ["d", "a.webp"], true, 100, 50, ""⟩ false rfl with h | h
  · exact h.1
  · exact absurd h.1 (by simp)

/-- C1 counterexample: an I/O error raised by `source.stat()` — which the
source takes BEFORE the `try` block — propagates out of
`convert_single_image` instead of being recorded as a failure result. -/
theorem c1_counterexample :
    convert_single_image {} ["pics"] ["pics", "a.png"] "20260101" "120000"
        (Except.error "[Errno 2] No such file or directory") (Except.ok 10) =
      Except.error "[Errno 2] No such file or directory" := rfl

/-! Fold lemmas for the Tkinter conversion loop. -/

theorem converter_fold_erros (conv : Path → Except String (Nat × Nat))
    (l : List FsEntry) (st : TkState) :
    (l.foldl (converter_step conv) st).erros =
      st.erros + (l.filter tkShouldProcess).countP (fun e => exceptFailed (conv e.path)) := by
  induction l generalizing st with
  | nil => simp
  | cons e rest ih =>
    rw [List.foldl_cons, ih]
    by_cases hp : tkShouldProcess e
    · cases hc : conv e.path with
      | ok v =>
        obtain ⟨t1, t2⟩ := v
        simp [converter_step, hp, hc, exceptFailed]
      | error m =>
        simp [converter_step, hp, hc, exceptFailed]
        omega
    · simp [converter_step, hp, Bool.eq_false_iff.mpr hp]

theorem converter_fold_logs_mono (conv : Path → Except String (Nat × Nat))
    (l : List FsEntry) (st : TkState) :
    ∃ suf, (l.foldl (converter_step conv) st).logs = st.logs ++ suf := by
  induction l generalizing st with
  | nil => exact ⟨[], by simp⟩
  | cons e rest ih =>
    rw [List.foldl_cons]
    obtain ⟨suf, hsuf⟩ := ih (converter_step conv st e)
    unfold converter_step at hsuf ⊢
    by_cases hp : tkShouldProcess e
    · cases hc : conv e.path with
      | ok v =>
        obtain ⟨t1, t2⟩ := v
        rw [hc] at hsuf
        simp [hp, hc] at hsuf ⊢
        exact ⟨_, hsuf⟩
      | error m =>
        rw [hc] at hsuf
        simp [hp, hc] at hsuf ⊢
        exact ⟨_, hsuf⟩
    · rw [if_neg hp] at hsuf
      rw [if_neg hp]
      exact ⟨suf, hsuf⟩

theorem converter_fold_logs_mem (conv : Path → Except String (Nat × Nat))
    (l : List FsEntry) (e : FsEntry) (msg : String) :
    ∀ (st : TkState), e ∈ l → tkShouldProcess e = true → conv e.path = Except.error msg →
    tkErrorLog e msg ∈ (l.foldl (converter_step conv) st).logs := by
  induction l with
  | nil => intro st he _ _; cases he
  | cons f rest ih =>
    intro st he hp hc
    rcases List.mem_cons.mp he with hef | hmem
    · subst hef
      have hstep : tkErrorLog e msg ∈ (converter_step conv st e).logs := by
        simp [converter_step, hp, hc]
      obtain ⟨suf, hsuf⟩ := converter_fold_logs_mono conv rest (converter_step conv st e)
      rw [List.foldl_cons, hsuf]
      exact List.mem_append_left _ hstep
    · rw [List.foldl_cons]
      exact ih _ hmem hp hc

/-- C1 (amended): every exception raised inside the per-file `try` block
is caught and recorded — in the PyQt app as a `ConversionResult` with
`success=False` and the exception's message, in the Tkinter app as one
error-log entry per failing file and an error counter equal to the number
of failing files.  (Per the counterexample, an I/O error from the initial
`source.stat()` in the PyQt app is outside the `try` and propagates.) -/
theorem c1_try_block_errors_recorded :
    (∀ (s : ConversionSettings) (dir source : Path) (dateStr timeStr : String)
        (n : Nat) (e : String) (out : Path),
        generate_output_path s dir source dateStr timeStr = some out →
        convert_single_image s dir source dateStr timeStr (Except.ok n) (Except.error e) =
          Except.ok (⟨source, none, false, n, 0, e⟩, false)) ∧
    (∀ (fs : List FsEntry) (dirOrigem : Path) (conv : Path → Except String (Nat × Nat)),
        (converter_imagens fs dirOrigem conv).erros =
          (((fs.filter (fun e => isDescendant dirOrigem e.path)).filter
              tkShouldProcess).countP (fun e => exceptFailed (conv e.path))) ∧
        ∀ e ∈ fs, isDescendant dirOrigem e.path = true → tkShouldProcess e = true →
          ∀ msg, conv e.path = Except.error msg →
            tkErrorLog e msg ∈ (converter_imagens fs dirOrigem conv).logs) := by
  constructor
  · intro s dir source dateStr timeStr n e out hg
    unfold convert_single_image
    rw [hg]
  · intro fs dirOrigem conv
    constructor
    · unfold converter_imagens
      rw [converter_fold_erros]
      simp
    · intro e he hdesc hp msg hc
      unfold converter_imagens
      exact converter_fold_logs_mem conv _ e msg _ (List.mem_filter.mpr ⟨he, hdesc⟩) hp hc

/-- Witness for C1 (amended), at a concrete failing decode. -/
theorem c1_try_block_errors_recorded_witness :
    convert_single_image {} ["d"] ["d", "a.png"] "x" "y" (Except.ok 7)
        (Except.error "cannot identify image file") =
      Except.ok (⟨["d", "a.png"], none, false, 7, 0, "cannot identify image file"⟩, false) :=
  c1_try_block_errors_recorded.1 {} ["d"] ["d", "a.png"] "x" "y" 7
    "cannot identify image file" ["d", "a.webp"] rfl

/-! Membership characterization for the glob/scan pipeline. -/

theorem mem_globFiles (fs : List FsEntry) (recursive : Bool) (dir : Path) (pat : String)
    (p : Path) :
    p ∈ globFiles fs recursive dir pat ↔
      ∃ e ∈ fs, e.path = p ∧ globMatch recursive dir pat p = true := by
  unfold globFiles
  simp only [List.mem_map, List.mem_filter]
  constructor
  · rintro ⟨e, ⟨he, hm⟩, hp⟩
    exact ⟨e, he, hp, hp ▸ hm⟩
  · rintro ⟨e, he, hp, hm⟩
    exact ⟨e, ⟨he, hp.symm ▸ hm⟩, hp⟩

theorem mem_glob_foldl (fs : List FsEntry) (recursive : Bool) (dir : Path)
    (exts : List String) (p : Path) :
    ∀ (acc : List Path),
    (p ∈ exts.foldl
      (fun acc2 ext =>
        acc2 ++ globFiles fs recursive dir ext ++ globFiles fs recursive dir (strUpper ext))
      acc) ↔
      p ∈ acc ∨ ∃ ext ∈ exts,
        p ∈ globFiles fs recursive dir ext ∨ p ∈ globFiles fs recursive dir (strUpper ext) := by
  induction exts with
  | nil => intro acc; simp
  | cons x xs ih =>
    intro acc
    rw [List.foldl_cons, ih]
    simp only [List.mem_append, List.mem_cons]
    aesop

/-- C4 counterexample: `find_images` performs no `is_file` check, so a
DIRECTORY whose name ends in a recognized extension is also returned and
submitted for conversion — the result is not "exactly those files". -/
theorem c4_counterexample :
    (["d", "x.png"] ∈
      find_images [⟨["d", "x.png"], false, []⟩] ["d"] { input_format := "PNG" }) ∧
    (∀ e ∈ ([⟨["d", "x.png"], false, []⟩] : List FsEntry), e.isFile = false) := by
  constructor
  · decide
  · decide

/-- C4 (amended): `find_images` returns exactly those filesystem entries
(files or directories — the globs do not filter on `is_file`) at the
depth selected by `recursive` whose final name ends with one of the
selected input format's extensions, in lower-case or upper-case spelling;
a path with any other extension is never returned. -/
theorem c4_find_images_exact (fs : List FsEntry) (dir : Path) (s : ConversionSettings)
    (p : Path) :
    p ∈ find_images fs dir s ↔
      ∃ e ∈ fs, e.path = p ∧
        (if s.recursive then isDescendant dir p else isChild dir p) = true ∧
        ∃ ext ∈ get_input_extensions s.input_format,
          strEndsWith (entryName p) ext = true ∨
            strEndsWith (entryName p) (strUpper ext) = true := by
  have base : p ∈ find_images fs dir s ↔
      ∃ ext ∈ get_input_extensions s.input_format,
        p ∈ globFiles fs s.recursive dir ext ∨
          p ∈ globFiles fs s.recursive dir (strUpper ext) := by
    unfold find_images
    rw [List.Perm.mem_iff (List.perm_insertionSort pathLeP _), List.mem_dedup,
      mem_glob_foldl]
    simp
  rw [base]
  constructor
  · rintro ⟨ext, hext, h | h⟩ <;>
      obtain ⟨e, he, hp, hm⟩ := (mem_globFiles fs s.recursive dir _ p).mp h <;>
      rw [globMatch, Bool.and_eq_true] at hm
    · exact ⟨e, he, hp, hm.1, ext, hext, Or.inl hm.2⟩
    · exact ⟨e, he, hp, hm.1, ext, hext, Or.inr hm.2⟩
  · rintro ⟨e, he, hp, hdepth, ext, hext, hends | hends⟩
    · refine ⟨ext, hext, Or.inl ((mem_globFiles fs s.recursive dir ext p).mpr
        ⟨e, he, hp, ?_⟩)⟩
      rw [globMatch, Bool.and_eq_true]
      exact ⟨hdepth, hends⟩
    · refine ⟨ext, hext, Or.inr ((mem_globFiles fs s.recursive dir (strUpper ext) p).mpr
        ⟨e, he, hp, ?_⟩)⟩
      rw [globMatch, Bool.and_eq_true]
      exact ⟨hdepth, hends⟩

/-! Trace extractor lemmas for the worker run loop. -/

theorem submittedPaths_append (a b : List Event) :
    submittedPaths (a ++ b) = submittedPaths a ++ submittedPaths b := by
  induction a with
  | nil => rfl
  | cons x rest ih => cases x <;> simp [submittedPaths, ih]

theorem completePayloads_append (a b : List Event) :
    completePayloads (a ++ b) = completePayloads a ++ completePayloads b := by
  induction a with
  | nil => rfl
  | cons x rest ih => cases x <;> simp [completePayloads, ih]

theorem fileConvertedResults_append (a b : List Event) :
    fileConvertedResults (a ++ b) = fileConvertedResults a ++ fileConvertedResults b := by
  induction a with
  | nil => rfl
  | cons x rest ih => cases x <;> simp [fileConvertedResults, ih]

theorem submittedPaths_map_submit (l : List Path) :
    submittedPaths (l.map Event.submit) = l := by
  induction l with
  | nil => rfl
  | cons p rest ih => simp [submittedPaths, ih]

theorem completePayloads_map_submit (l : List Path) :
    completePayloads (l.map Event.submit) = [] := by
  induction l with
  | nil => rfl
  | cons p rest ih => simp [completePayloads, ih]

theorem fileConvertedResults_map_submit (l : List Path) :
    fileConvertedResults (l.map Event.submit) = [] := by
  induction l with
  | nil => rfl
  | cons p rest ih => simp [fileConvertedResults, ih]

theorem run_loop_fileConverted (conv : Path → ConversionResult) (total : Nat)
    (cancelledAt : Nat → Bool) :
    ∀ (order : List Path) (i : Nat),
      fileConvertedResults (run_loop conv total cancelledAt order i).1 =
        (run_loop conv total cancelledAt order i).2 := by
  intro order
  induction order with
  | nil => intro i; rfl
  | cons img rest ih =>
    intro i
    unfold run_loop
    by_cases hc : cancelledAt i
    · simp [hc, fileConvertedResults]
    · cases hs : (conv img).success <;>
        simp [hc, hs, fileConvertedResults, ih (i + 1)]

theorem run_loop_spec_nocancel (conv : Path → ConversionResult) (total : Nat)
    (cancelledAt : Nat → Bool) (hnc : ∀ i, cancelledAt i = false) :
    ∀ (order : List Path) (i : Nat),
      (run_loop conv total cancelledAt order i).2 = order.map conv ∧
      submittedPaths (run_loop conv total cancelledAt order i).1 = [] ∧
      completePayloads (run_loop conv total cancelledAt order i).1 = [] := by
  intro order
  induction order with
  | nil => intro i; exact ⟨rfl, rfl, rfl⟩
  | cons img rest ih =>
    intro i
    unfold run_loop
    obtain ⟨h1, h2, h3⟩ := ih (i + 1)
    cases hs : (conv img).success <;>
      simp [hnc i, hs, submittedPaths, completePayloads, h1, h2, h3]

theorem run_loop_cancel_spec (conv : Path → ConversionResult) (total : Nat)
    (cancelledAt : Nat → Bool) :
    ∀ (order : List Path) (i k : Nat), k < order.length →
      cancelledAt (i + k) = true → (∀ j, j < k → cancelledAt (i + j) = false) →
      (run_loop conv total cancelledAt order i).2 = (order.take k).map conv ∧
      ∃ pre, (run_loop conv total cancelledAt order i).1 =
          pre ++ [Event.log "Conversion cancelled by user" "warning"] ∧
        submittedPaths pre = [] ∧ completePayloads pre = [] ∧
        fileConvertedResults pre = (order.take k).map conv := by
  intro order
  induction order with
  | nil => intro i k hk; exact absurd hk (by simp)
  | cons img rest ih =>
    intro i k hk hck hbef
    cases k with
    | zero =>
      have hci : cancelledAt i = true := by simpa using hck
      unfold run_loop
      rw [hci]
      exact ⟨rfl, [], rfl, rfl, rfl, rfl⟩
    | succ k2 =>
      have hci : cancelledAt i = false := by
        have := hbef 0 (Nat.succ_pos k2)
        simpa using this
      have hck2 : cancelledAt (i + 1 + k2) = true := by
        have : i + 1 + k2 = i + (k2 + 1) := by omega
        rw [this]; exact hck
      have hbef2 : ∀ j, j < k2 → cancelledAt (i + 1 + j) = false := by
        intro j hj
        have : i + 1 + j = i + (j + 1) := by omega
        rw [this]; exact hbef (j + 1) (by omega)
      obtain ⟨h1, pre, hpre, hsub, hcomp, hfc⟩ :=
        ih (i + 1) k2 (by simpa using Nat.lt_of_succ_lt_succ hk) hck2 hbef2
      unfold run_loop
      rw [hci]
      simp only [Bool.false_eq_true, if_false]
      constructor
      · simp [h1]
      · refine ⟨(if (conv img).success then
            Event.log "converted" "success"
          else
            Event.log (conv img).error_message "error")
            :: Event.fileConverted (conv img) :: Event.progressEv (i + 1) total :: pre,
          ?_, ?_, ?_, ?_⟩ <;>
          cases hs : (conv img).success <;>
          simp [hs, hpre, hsub, hcomp, hfc, submittedPaths, completePayloads,
            fileConvertedResults]

/-- C2: when a run starts, exactly one task per file returned by
`find_images` is submitted to the `max_workers` pool, and (in an
uncancelled run where all tasks complete, `order` being the completion
order) `conversion_complete` is emitted last, after every completion,
carrying one result per submitted file. -/
theorem c2_one_task_per_discovered_file (fs : List FsEntry) (dir : Path)
    (s : ConversionSettings) (conv : Path → ConversionResult) (order : List Path)
    (cancelledAt : Nat → Bool)
    (hperm : List.Perm order (find_images fs dir s))
    (hnc : ∀ i, cancelledAt i = false) :
    submittedPaths (ConversionWorker.run fs dir s conv order cancelledAt) =
      find_images fs dir s ∧
    completePayloads (ConversionWorker.run fs dir s conv order cancelledAt) =
      [order.map conv] ∧
    (ConversionWorker.run fs dir s conv order cancelledAt).getLast? =
      some (Event.complete (order.map conv)) ∧
    (order.map conv).length = (find_images fs dir s).length := by
  unfold ConversionWorker.run
  by_cases himg : (find_images fs dir s).isEmpty = true
  · have himgs : find_images fs dir s = [] := by simpa using himg
    have horder : order = [] := (himgs ▸ hperm).eq_nil
    subst horder
    simp [himg, himgs, submittedPaths, completePayloads]
  · have himgf : (find_images fs dir s).isEmpty = false := by
      simpa using himg
    obtain ⟨hres, hsub, hcomp⟩ :=
      run_loop_spec_nocancel conv (find_images fs dir s).length cancelledAt hnc order 0
    refine ⟨?_, ?_, ?_, ?_⟩
    · simp [himgf, submittedPaths_append, submittedPaths_map_submit, hsub, submittedPaths]
    · simp [himgf, completePayloads_append, completePayloads_map_submit, hcomp,
        completePayloads, hres]
    · simp only [himgf, Bool.false_eq_true, if_false]
      rw [hres]
      exact List.getLast?_concat ..
    · simp [hperm.length_eq]

/-- Witness for C2 on a one-file filesystem with no cancellation. -/
theorem c2_one_task_per_discovered_file_witness :
    submittedPaths
        (ConversionWorker.run [⟨["d", "a.png"], true, []⟩] ["d"] {}
          (fun p => ⟨p, none, false, 1, 0, "e"⟩) [["d", "a.png"]] (fun _ => false)) =
      find_images [⟨["d", "a.png"], true, []⟩] ["d"] {} :=
  (c2_one_task_per_discovered_file [⟨["d", "a.png"], true, []⟩] ["d"] {}
    (fun p => ⟨p, none, false, 1, 0, "e"⟩) [["d", "a.png"]] (fun _ => false)
    (by decide) (fun _ => rfl)).1

/-- C3: cancellation is observed only at completion boundaries — if the
flag first reads true at completion `k`, the run emits the cancellation
log and then `conversion_complete` with exactly the first `k` results; no
further result is appended or reported, while all tasks were already
submitted (none is revoked). -/
theorem c3_cancel_stops_reporting (fs : List FsEntry) (dir : Path)
    (s : ConversionSettings) (conv : Path → ConversionResult) (order : List Path)
    (cancelledAt : Nat → Bool) (k : Nat)
    (hne : find_images fs dir s ≠ [])
    (hk : k < order.length)
    (hck : cancelledAt k = true)
    (hbef : ∀ j, j < k → cancelledAt j = false) :
    (∃ pre, ConversionWorker.run fs dir s conv order cancelledAt =
        pre ++ [Event.log "Conversion cancelled by user" "warning",
                Event.complete ((order.take k).map conv)]) ∧
    fileConvertedResults (ConversionWorker.run fs dir s conv order cancelledAt) =
      (order.take k).map conv ∧
    completePayloads (ConversionWorker.run fs dir s conv order cancelledAt) =
      [(order.take k).map conv] ∧
    submittedPaths (ConversionWorker.run fs dir s conv order cancelledAt) =
      find_images fs dir s := by
  unfold ConversionWorker.run
  have himgf : (find_images fs dir s).isEmpty = false := by
    simpa [List.isEmpty_iff] using hne
  obtain ⟨hres, pre, hpre, hsub, hcomp, hfc⟩ :=
    run_loop_cancel_spec conv (find_images fs dir s).length cancelledAt order 0 k hk
      (by simpa using hck) (by intro j hj; simpa using hbef j hj)
  have hfcloop := run_loop_fileConverted conv (find_images fs dir s).length cancelledAt order 0
  refine ⟨?_, ?_, ?_, ?_⟩
  · refine ⟨[Event.log "Scanning directory" "info",
      Event.log "Found images to convert" "info",
      Event.pool s.max_workers]
        ++ (find_images fs dir s).map Event.submit ++ pre, ?_⟩
    simp [himgf, hpre, hres, List.append_assoc]
  · simp [himgf, fileConvertedResults_append, fileConvertedResults_map_submit,
      fileConvertedResults, hfcloop, hres]
  · simp [himgf, completePayloads_append, completePayloads_map_submit,
      completePayloads, hpre, hcomp, hres]
  · simp [himgf, submittedPaths_append, submittedPaths_map_submit, submittedPaths,
      hpre, hsub]

/-- Witness for C3: two discovered files, the flag set after the first
completion — exactly one result is reported. -/
theorem c3_cancel_stops_reporting_witness :
    fileConvertedResults
        (ConversionWorker.run [⟨["d", "a.png"], true, []⟩, ⟨["d", "b.png"], true, []⟩]
          ["d"] {} (fun p => ⟨p, none, false, 1, 0, "e"⟩)
          [["d", "a.png"], ["d", "b.png"]] (fun i => decide (1 ≤ i))) =
      (([["d", "a.png"], ["d", "b.png"]] : List Path).take 1).map
        (fun p => (⟨p, none, false, 1, 0, "e"⟩ : ConversionResult)) :=
  (c3_cancel_stops_reporting [⟨["d", "a.png"], true, []⟩, ⟨["d", "b.png"], true, []⟩]
    ["d"] {} (fun p => ⟨p, none, false, 1, 0, "e"⟩)
    [["d", "a.png"], ["d", "b.png"]] (fun i => decide (1 ≤ i)) 1
    (by decide) (by decide) (by decide)
    (by intro j hj; have hj0 : j = 0 := by omega
        subst hj0; rfl)).2.1

/-! Helpers for the duplicate-detection claim. -/

theorem two_le_length_of_mem_ne {α : Type} {l : List α} {a b : α}
    (ha : a ∈ l) (hb : b ∈ l) (hab : a ≠ b) : 2 ≤ l.length := by
  induction l with
  | nil => cases ha
  | cons c cs ih =>
    rcases List.mem_cons.mp ha with rfl | ha2
    · rcases List.mem_cons.mp hb with rfl | hb2
      · exact absurd rfl hab
      · have := List.length_pos_of_mem hb2
        simp only [List.length_cons]
        omega
    · have := List.length_pos_of_mem ha2
      simp only [List.length_cons]
      omega

theorem dupScanned_subset (fs : List FsEntry) (dir : Path) {e : FsEntry}
    (he : e ∈ dupScanned fs dir) : e ∈ fs :=
  (List.mem_filter.mp he).1

/-- C7: under a successful scan, two distinct scanned files land in a
common reported duplicate group exactly when the MD5 digests of their
full contents agree, and every reported group has at least two members. -/
theorem c7_duplicate_groups_iff_md5_eq (md5 : List Nat → String) (fs : List FsEntry)
    (dir : Path) (groups : List (List Path))
    (hok : find_duplicates md5 fs dir = Except.ok groups)
    (hnd : (fs.map FsEntry.path).Nodup)
    (x y : FsEntry) (hx : x ∈ dupScanned fs dir) (hy : y ∈ dupScanned fs dir)
    (hxy : x ≠ y) :
    ((∃ g ∈ groups, x.path ∈ g ∧ y.path ∈ g) ↔ md5 x.content = md5 y.content) ∧
    (∀ g ∈ groups, 2 ≤ g.length) := by
  have pathInj : ∀ {e f : FsEntry}, e ∈ dupScanned fs dir → f ∈ dupScanned fs dir →
      e.path = f.path → e = f := by
    intro e f he hf hef
    exact List.inj_on_of_nodup_map hnd (dupScanned_subset fs dir he)
      (dupScanned_subset fs dir hf) hef
  unfold find_duplicates at hok
  by_cases hall : (dupScanned fs dir).all (fun e => e.isFile) = true
  · rw [if_pos hall] at hok
    have hg : groups =
        (((dupScanned fs dir).map (get_file_hash md5)).dedup.map (fun k =>
          ((dupScanned fs dir).filter (fun e => get_file_hash md5 e == k)).map
            (fun e => e.path))).filter (fun g => decide (1 < g.length)) := by
      injection hok with h2
      exact h2.symm
    subst hg
    constructor
    · constructor
      · rintro ⟨g, hgmem, hxg, hyg⟩
        obtain ⟨hgmap, -⟩ := List.mem_filter.mp hgmem
        obtain ⟨k, -, hgk⟩ := List.mem_map.mp hgmap
        rw [← hgk] at hxg hyg
        obtain ⟨ex, hexf, hexp⟩ := List.mem_map.mp hxg
        obtain ⟨ey, heyf, heyp⟩ := List.mem_map.mp hyg
        obtain ⟨hexs, hexk⟩ := List.mem_filter.mp hexf
        obtain ⟨heys, heyk⟩ := List.mem_filter.mp heyf
        have hex : ex = x := pathInj hexs hx hexp
        have hey : ey = y := pathInj heys hy heyp
        have h1 : get_file_hash md5 x = k := by rw [← hex]; simpa using hexk
        have h2 : get_file_hash md5 y = k := by rw [← hey]; simpa using heyk
        rw [show md5 x.content = get_file_hash md5 x from rfl,
          show md5 y.content = get_file_hash md5 y from rfl, h1, h2]
      · intro hmd
        have hxmem : x ∈ (dupScanned fs dir).filter
            (fun e => get_file_hash md5 e == md5 x.content) :=
          List.mem_filter.mpr ⟨hx, by simp [get_file_hash]⟩
        have hymem : y ∈ (dupScanned fs dir).filter
            (fun e => get_file_hash md5 e == md5 x.content) :=
          List.mem_filter.mpr ⟨hy, by simp [get_file_hash, hmd.symm]⟩
        have hlen := two_le_length_of_mem_ne hxmem hymem hxy
        refine ⟨((dupScanned fs dir).filter
            (fun e => get_file_hash md5 e == md5 x.content)).map (fun e => e.path),
          List.mem_filter.mpr ⟨List.mem_map.mpr ⟨md5 x.content, ?_, rfl⟩, ?_⟩,
          List.mem_map.mpr ⟨x, hxmem, rfl⟩, List.mem_map.mpr ⟨y, hymem, rfl⟩⟩
        · exact List.mem_dedup.mpr (List.mem_map.mpr ⟨x, hx, rfl⟩)
        · simp only [List.length_map]
          simpa using hlen
    · intro g hgmem
      have := (List.mem_filter.mp hgmem).2
      simpa using this
  · rw [if_neg hall] at hok
    cases hok

/-- Witness for C7: two files with identical contents form the one
reported duplicate group. -/
theorem c7_duplicate_groups_iff_md5_eq_witness :
    ∃ g ∈ [[(["d", "b.png"] : Path), ["d", "a.PNG"]]],
      (["d", "b.png"] : Path) ∈ g ∧ (["d", "a.PNG"] : Path) ∈ g :=
  (c7_duplicate_groups_iff_md5_eq (fun c => Nat.repr c.length)
    [⟨["d", "b.png"], true, [1, 2]⟩, ⟨["d", "a.PNG"], true, [1, 2]⟩,
     ⟨["d", "sub", "c.jpg"], true, [3]⟩]
    ["d"] [[["d", "b.png"], ["d", "a.PNG"]]] rfl (by decide)
    ⟨["d", "b.png"], true, [1, 2]⟩ ⟨["d", "a.PNG"], true, [1, 2]⟩
    (by decide) (by decide) (by decide)).1.mpr rfl

end ImageConverter
